import Mathlib

/-!
# state_stack: a stack-based state tracker

A shallow embedding of `src/state_stack.h` (class template `state_stack<T>`)
and a verification development over it.

Modelling conventions

* `T` is any type with decidable equality (the C++ `operator==`).
* `std::vector<T> m_states` is the structure `vec`: the live elements, bottom
  first, followed by the storage slots behind the end of the vector, which keep
  the value that was last written to them, a count of further spare slots,
  and the number of the storage block.  Slots and block exist because
  `clear()` binds `T& old_state = m_states.back()`, a reference to a storage
  slot, and reads it again after the exit handlers ran and after `pop_back`.
  A `push_back` at `size() == capacity()` reallocates: the block number goes
  up, and a read through a reference into an older block has no defined
  result.  Within one block a reference reads what its slot holds.  How much a
  reallocation over-allocates is implementation-defined; the model takes the
  least, a new block that is full.  For the first two pushes into a fresh
  vector, as in the tests, that is the capacity the common libraries give
  (1, then 2).  `T` is taken to be a plain value type such as the
  `enum class` of the tests.
* A handler (`std::function<void(const T&, const T&)>`) is a value of an
  arbitrary type `F`; what calling it does to the stack object is given by a
  parameter `run : F → T → T → state_stack T F → Option (state_stack T F)`.
  Every operation that can reach a handler therefore returns an `Option`,
  where `none` stands for a call without a defined result: it does not
  return, or it reads a dangling reference.
* Handlers that call back into the same stack are the instance `reentrant`:
  a handler is the list of calls it makes (`calling_handler`), and a number
  bounds how deep handler calls nest.  A method call returns when some bound
  gives a result, and does not when every bound gives `none`.
* `invoked` is a ghost field: the dispatch loops append one record to it for
  every handler they call.
* The recursive mutex and the diagnostic output (`log_info`, `display_stack`)
  have no effect on the stack object and are left out.
-/

namespace StateStack

/-- The enumeration `run_state` of `src/state_stack_tests.cpp`. -/
inductive run_state where
  | undefined
  | running
  | starting_up
  | docked
  | recording
  | uploading
  | sleeping
  | shutting_down
  deriving DecidableEq, Repr

/-- Model of `std::vector<T>`: `live` are the elements of the vector (index 0
first); `stale` are the storage slots directly behind the end that held an
element since the last reallocation, with their last content; `spare` counts
the slots behind those (capacity is `size + stale + spare`); `block` numbers
the storage block, it goes up at every reallocation. -/
structure vec (T : Type) where
  live : List T
  stale : List T
  spare : Nat := 0
  block : Nat := 0
  deriving DecidableEq, Repr

/-- The call `size()`. -/
def vec.size {T : Type} (v : vec T) : Nat :=
  v.live.length

/-- The call `operator[]` read as a value; `none` is an index out of bounds. -/
def vec.index {T : Type} (v : vec T) (i : Nat) : Option T :=
  v.live[i]?

/-- The call `back()` read as a value; `none` on an empty vector. -/
def vec.back {T : Type} (v : vec T) : Option T :=
  v.live.getLast?

/-- The call `capacity()`. -/
def vec.capacity {T : Type} (v : vec T) : Nat :=
  v.live.length + v.stale.length + v.spare

/-- The content of storage slot `i` of the current block. -/
def vec.slot {T : Type} (v : vec T) (i : Nat) : Option T :=
  (v.live ++ v.stale)[i]?

/-- Read through a reference `T&` that was bound to slot `i` while the storage
was block `block`.  After a reallocation the reference dangles and the read
has no defined result: `none`. -/
def vec.deref {T : Type} (v : vec T) (i block : Nat) : Option T :=
  if block = v.block then v.slot i else none

/-- The call `push_back(x)`.  With `size() < capacity()` it writes the first
slot behind the end.  With `size() == capacity()` it reallocates: the elements
move to a new block and every reference into the old one dangles.  How much a
reallocation over-allocates is left to the implementation; the new block is
taken as full. -/
def vec.push_back {T : Type} (v : vec T) (x : T) : vec T :=
  { live := v.live ++ [x]
    stale := v.stale.tail
    spare := if v.stale.length = 0 then v.spare - 1 else v.spare
    block := if v.stale.length = 0 ∧ v.spare = 0 then v.block + 1 else v.block }

/-- The call `pop_back()`: the last slot leaves the vector and keeps its value. -/
def vec.pop_back {T : Type} (v : vec T) : vec T :=
  { v with live := v.live.dropLast, stale := v.live.getLast?.toList ++ v.stale }

/-- The call `erase(begin() + i)`: the elements above `i` move down one slot;
the former last slot leaves the vector and keeps its value. -/
def vec.erase {T : Type} (v : vec T) (i : Nat) : vec T :=
  if i < v.live.length then
    { v with live := v.live.eraseIdx i, stale := v.live.getLast?.toList ++ v.stale }
  else v

/-- The call `clear()` of the vector: the capacity stays. -/
def vec.clear {T : Type} (v : vec T) : vec T :=
  { v with live := [], stale := v.live ++ v.stale }

/-- The call `reserve(new_cap)`: with `new_cap > capacity()` the elements move
to a new block of `new_cap` slots, otherwise nothing happens. -/
def vec.reserve {T : Type} (v : vec T) (new_cap : Nat) : vec T :=
  if v.capacity < new_cap then
    { live := v.live, stale := [], spare := new_cap - v.live.length, block := v.block + 1 }
  else v

/-- The call `std::find(v.rbegin(), v.rend(), state)`: the distance from
`rbegin()` of the first match, `none` for `rend()`. -/
def vec.rfind {T : Type} [DecidableEq T] (v : vec T) (state : T) : Option Nat :=
  if state ∈ v.live then some (v.live.reverse.indexOf state) else none

/-- Which registry a called handler came from. -/
inductive handler_kind where
  | entry
  | exit
  deriving DecidableEq, Repr

/-- Ghost record of one handler call: the registry, the position of the
handler in it, and the two arguments it was called with. -/
structure invocation (T : Type) where
  kind : handler_kind
  position : Nat
  old_state : T
  new_state : T
  deriving DecidableEq, Repr

/-- The data members of `state_stack<T>` and the ghost field `invoked`. -/
structure state_stack (T F : Type) where
  m_states : vec T
  m_state_strings : List (T × String)
  m_undefined_state : T
  m_label : String
  m_entry_handlers : List (T × F)
  m_exit_handlers : List (T × F)
  invoked : List (invocation T)
  deriving DecidableEq, Repr

/-- Semantics of calling a handler: handler, `old_state`, `new_state`, the
stack object before the call; the stack object after it, or `none` when the
call has no defined result. -/
abbrev runner (T F : Type) : Type :=
  F → T → T → state_stack T F → Option (state_stack T F)

/-- A handler that leaves the stack object alone. -/
def silent {T F : Type} : runner T F :=
  fun _ _ _ st => some st

/-- The constructor `state_stack(const T& undefined_state)`. -/
def state_stack.new {T F : Type} (undefined_state : T) : state_stack T F :=
  { m_states := { live := [], stale := [] }
    m_state_strings := []
    m_undefined_state := undefined_state
    m_label := ""
    m_entry_handlers := []
    m_exit_handlers := []
    invoked := [] }

/-- The History of the specification: the elements of `m_states`, bottom first. -/
def state_stack.history {T F : Type} (st : state_stack T F) : List T :=
  st.m_states.live

/-- The method `reserve`. -/
def state_stack.reserve {T F : Type} (st : state_stack T F) (new_cap : Nat) : state_stack T F :=
  { st with m_states := st.m_states.reserve new_cap }

/-- The method `count`. -/
def state_stack.count {T F : Type} (st : state_stack T F) : Nat :=
  st.m_states.size

/-- The method `reset`. -/
def state_stack.reset {T F : Type} (st : state_stack T F) : state_stack T F :=
  { st with m_states := st.m_states.clear }

/-- The method `get`; `none` would be an index out of bounds. -/
def state_stack.get {T F : Type} (st : state_stack T F) : Option T :=
  if st.m_states.size = 0 then some st.m_undefined_state
  else st.m_states.index (st.m_states.size - 1)

/-- The method `get_last`; `none` would be an index out of bounds. -/
def state_stack.get_last {T F : Type} (st : state_stack T F) : Option T :=
  if st.m_states.size < 2 then some st.m_undefined_state
  else st.m_states.index (st.m_states.size - 2)

/-- The method `is_state_set`. -/
def state_stack.is_state_set {T F : Type} [DecidableEq T] (st : state_stack T F) (state : T) : Bool :=
  if st.m_states.size = 0 then false
  else st.m_states.live.any (fun item => decide (item = state))

/-- The method `add_exit_handler`. -/
def state_stack.add_exit_handler {T F : Type} (st : state_stack T F) (state : T) (functor : F) :
    state_stack T F :=
  { st with m_exit_handlers := st.m_exit_handlers ++ [(state, functor)] }

/-- The method `add_entry_handler`. -/
def state_stack.add_entry_handler {T F : Type} (st : state_stack T F) (state : T) (functor : F) :
    state_stack T F :=
  { st with m_entry_handlers := st.m_entry_handlers ++ [(state, functor)] }

/-- Ghost step: note that the handler at `position` of registry `kind` is called. -/
def state_stack.record {T F : Type} (st : state_stack T F) (kind : handler_kind) (position : Nat)
    (old_state new_state : T) : state_stack T F :=
  { st with invoked := st.invoked ++ [⟨kind, position, old_state, new_state⟩] }

/-- The loop of `process_exit_handlers` from registry position `position` on.
`old_state` is the reference the caller passed: slot `old_ref` of block
`old_block` of `m_states`; it is read at every test and at every call. -/
def exit_loop {T F : Type} [DecidableEq T] (run : runner T F) (old_ref old_block : Nat)
    (new_state : T) :
    Nat → List (T × F) → state_stack T F → Option (state_stack T F)
  | _, [], st => some st
  | position, functor :: rest, st =>
    match st.m_states.deref old_ref old_block with
    | none => none
    | some old_state =>
      if functor.1 = old_state ∨ functor.1 = st.m_undefined_state then
        match run functor.2 old_state new_state
            (st.record handler_kind.exit position old_state new_state) with
        | none => none
        | some st1 => exit_loop run old_ref old_block new_state (position + 1) rest st1
      else exit_loop run old_ref old_block new_state (position + 1) rest st

/-- The method `process_exit_handlers`.  Its caller `clear()` passes for
`old_state` the reference to slot `old_ref` of `m_states` it has just bound,
so the block the reference points into is the current one. -/
def state_stack.process_exit_handlers {T F : Type} [DecidableEq T] (run : runner T F)
    (old_ref : Nat) (new_state : T) (st : state_stack T F) : Option (state_stack T F) :=
  exit_loop run old_ref st.m_states.block new_state 0 st.m_exit_handlers st

/-- The loop of `process_entry_handlers` from registry position `position` on. -/
def entry_loop {T F : Type} [DecidableEq T] (run : runner T F) (old_state new_state : T) :
    Nat → List (T × F) → state_stack T F → Option (state_stack T F)
  | _, [], st => some st
  | position, functor :: rest, st =>
    if functor.1 = new_state ∨ functor.1 = st.m_undefined_state then
      match run functor.2 old_state new_state
          (st.record handler_kind.entry position old_state new_state) with
      | none => none
      | some st1 => entry_loop run old_state new_state (position + 1) rest st1
    else entry_loop run old_state new_state (position + 1) rest st

/-- The method `process_entry_handlers`. -/
def state_stack.process_entry_handlers {T F : Type} [DecidableEq T] (run : runner T F)
    (old_state new_state : T) (st : state_stack T F) : Option (state_stack T F) :=
  entry_loop run old_state new_state 0 st.m_entry_handlers st

/-- The method `set`. -/
def state_stack.set {T F : Type} [DecidableEq T] (run : runner T F) (new_state : T)
    (st : state_stack T F) : Option (state_stack T F) :=
  match st.get with
  | none => none
  | some old_state =>
    if new_state = old_state then some st
    else
      match st.process_entry_handlers run old_state new_state with
      | none => none
      | some st1 =>
        match st1.get with
        | none => none
        | some top =>
          if new_state = top then some st1
          else some { st1 with m_states := st1.m_states.push_back new_state }

/-- The method `T clear()`: the returned value and the stack object after the
call.  `old_state` is a reference to the last slot of `m_states`, bound
before the exit handlers run and read after them. -/
def state_stack.clear {T F : Type} [DecidableEq T] (run : runner T F) (st : state_stack T F) :
    Option (T × state_stack T F) :=
  if st.m_states.size = 0 then some (st.m_undefined_state, st)
  else
    let old_ref := st.m_states.size - 1
    let old_block := st.m_states.block
    match st.get_last with
    | none => none
    | some new_state =>
      match st.process_exit_handlers run old_ref new_state with
      | none => none
      | some st1 =>
        let popped : Option (state_stack T F) :=
          if st1.m_states.size > 0 then
            match st1.m_states.deref old_ref old_block, st1.m_states.back with
            | some old_state, some top =>
              if old_state = top then some { st1 with m_states := st1.m_states.pop_back }
              else some st1
            | _, _ => none
          else some st1
        match popped with
        | none => none
        | some st2 =>
          match st2.m_states.deref old_ref old_block with
          | none => none
          | some old_state => some (old_state, st2)

/-- The method `void clear(const T& state)`. -/
def state_stack.clear_state {T F : Type} [DecidableEq T] (run : runner T F) (state : T)
    (st : state_stack T F) : Option (state_stack T F) :=
  if st.m_states.size = 0 then some st
  else if st.m_states.back = some state then
    match st.clear run with
    | none => none
    | some r => some r.2
  else
    match st.m_states.rfind state with
    | none => some st
    | some it => some { st with m_states := st.m_states.erase (st.m_states.size - 1 - it) }

/-- The method `display_state`. -/
def state_stack.display_state {T F : Type} [DecidableEq T] (st : state_stack T F) (state : T) :
    String :=
  match st.m_state_strings.find? (fun s => decide (s.1 = state)) with
  | some s => s.2
  | none => "Unknown"

/-- The method `state_strings`. -/
def state_stack.state_strings {T F : Type} (st : state_stack T F) (strings : List (T × String)) :
    state_stack T F :=
  { st with m_state_strings := strings }

/-- A stack as the unit tests build them: sentinel `undefined`, history
`[running, docked]`, three entry handlers (for `recording`, for `docked`, and a
wildcard) and three exit handlers (a wildcard, for `running`, for `docked`). -/
def sample_stack : state_stack run_state Unit :=
  { m_states := { live := [run_state.running, run_state.docked], stale := [] }
    m_state_strings := []
    m_undefined_state := run_state.undefined
    m_label := ""
    m_entry_handlers :=
      [(run_state.recording, ()), (run_state.docked, ()), (run_state.undefined, ())]
    m_exit_handlers :=
      [(run_state.undefined, ()), (run_state.running, ()), (run_state.docked, ())]
    invoked := [] }

/-- The stack of `state_stack_verify_single_set`: sentinel `undefined`,
history `[running]`, no handlers. -/
def single_set_stack : state_stack run_state Unit :=
  { (state_stack.new run_state.undefined : state_stack run_state Unit) with
    m_states := { live := [run_state.running], stale := [] } }

/-- A stack whose display table gives `running` the label `"Unknown"`. -/
def unknown_label_stack : state_stack run_state Unit :=
  (state_stack.new run_state.undefined : state_stack run_state Unit).state_strings
    [(run_state.running, "Unknown")]

/-- The stack of `state_stack_verify_display_string` with the first three rows
of the table `run_state_strings`, and a second row for `running` added. -/
def display_string_stack : state_stack run_state Unit :=
  (single_set_stack).state_strings
    [(run_state.undefined, "Undefined"), (run_state.running, "Running"),
     (run_state.starting_up, "Starting Up"), (run_state.running, "Again")]

/-- One call of a mutating method from outside the class. -/
inductive call (T : Type) where
  | set (new_state : T)
  | clear
  | clear_state (state : T)
  | reset
  deriving DecidableEq, Repr

/-- Perform one call. -/
def state_stack.apply {T F : Type} [DecidableEq T] (run : runner T F) (st : state_stack T F) :
    call T → Option (state_stack T F)
  | call.set new_state => st.set run new_state
  | call.clear =>
    match st.clear run with
    | none => none
    | some r => some r.2
  | call.clear_state state => st.clear_state run state
  | call.reset => some st.reset

/-- Perform a finite sequence of calls, first call first. -/
def state_stack.apply_all {T F : Type} [DecidableEq T] (run : runner T F) :
    state_stack T F → List (call T) → Option (state_stack T F)
  | st, [] => some st
  | st, c :: rest =>
    match st.apply run c with
    | none => none
    | some st1 => state_stack.apply_all run st1 rest

/-- The stack objects that calls from outside lead to from `st0`, when every
call `c` is made in a state `st` with `permitted st c`. -/
inductive reachable {T F : Type} [DecidableEq T] (run : runner T F)
    (permitted : state_stack T F → call T → Prop) (st0 : state_stack T F) :
    state_stack T F → Prop where
  | start : reachable run permitted st0 st0
  | step {st st1 : state_stack T F} (c : call T) :
      reachable run permitted st0 st → permitted st c → st.apply run c = some st1 →
      reachable run permitted st0 st1

/-- In the history `h` the most recent occurrence of `x` (no `x` above it) lies
directly between two equal elements `a`. -/
def joins_equal {T : Type} (h : List T) (x : T) : Prop :=
  ∃ pre a post, h = pre ++ a :: x :: a :: post ∧ x ∉ a :: post

/-- A handler behaviour: every handler calls `reset()` and nothing else. -/
def resetting {T F : Type} : runner T F :=
  fun _ _ _ st => some st.reset

/-- A handler that acts only by calling `set`, `clear()`, `clear(state)` or
`reset` on the same stack: the calls it makes, in order, given its two
arguments. -/
abbrev calling_handler (T : Type) : Type :=
  T → T → List (call T)

/-- The behaviour of handlers that call back into the same stack.  The number
bounds how deep handler calls may nest; `none` says that the bound was not
enough, or that a nested call has no defined result.  A call of a method
returns when some bound gives a result. -/
def reentrant {T : Type} [DecidableEq T] : Nat → runner T (calling_handler T)
  | 0 => fun _ _ _ _ => none
  | fuel + 1 => fun functor old_state new_state st =>
    st.apply_all (reentrant fuel) (functor old_state new_state)

/-- The stack of `state_stack_verify_entry_handler` before the last `set`:
history `[running]`, an entry handler for `docked` that calls `set(recording)`. -/
def entry_handler_stack : state_stack run_state (calling_handler run_state) :=
  { (state_stack.new run_state.undefined :
      state_stack run_state (calling_handler run_state)) with
    m_states := { live := [run_state.running], stale := [] }
    m_entry_handlers := [(run_state.docked, fun _ _ => [call.set run_state.recording])] }

/-- The stack of `state_stack_verify_exit_handler` before `clear()`: history
`[running, docked]` in a vector of capacity 2, an exit handler for `docked`
that calls `set(recording)`. -/
def exit_handler_stack : state_stack run_state (calling_handler run_state) :=
  { (state_stack.new run_state.undefined :
      state_stack run_state (calling_handler run_state)) with
    m_states := { live := [run_state.running, run_state.docked], stale := [] }
    m_exit_handlers := [(run_state.docked, fun _ _ => [call.set run_state.recording])] }

/-- History `[running]` and an entry handler registered for the sentinel
`undefined`, so a wildcard, that calls `set(recording)`. -/
def wildcard_entry_stack : state_stack run_state (calling_handler run_state) :=
  { (state_stack.new run_state.undefined :
      state_stack run_state (calling_handler run_state)) with
    m_states := { live := [run_state.running], stale := [] }
    m_entry_handlers := [(run_state.undefined, fun _ _ => [call.set run_state.recording])] }

/-- History `[running, docked]` in a vector of capacity 2 and an exit handler
for `docked` that calls `clear(running)` and then `set(recording)`. -/
def interfering_exit_stack : state_stack run_state (calling_handler run_state) :=
  { (state_stack.new run_state.undefined :
      state_stack run_state (calling_handler run_state)) with
    m_states := { live := [run_state.running, run_state.docked], stale := [] }
    m_exit_handlers :=
      [(run_state.docked,
        fun _ _ => [call.clear_state run_state.running, call.set run_state.recording])] }

theorem get_eq {T F : Type} (st : state_stack T F) :
    st.get = some (st.history.getLast?.getD st.m_undefined_state) := by
  unfold state_stack.get state_stack.history vec.size vec.index
  rcases List.eq_nil_or_concat st.m_states.live with h | ⟨l, x, h⟩
  · simp [h]
  · simp [h]

theorem get_last_eq {T F : Type} (st : state_stack T F) :
    st.get_last = some (st.history.dropLast.getLast?.getD st.m_undefined_state) := by
  unfold state_stack.get_last state_stack.history vec.size vec.index
  rcases List.eq_nil_or_concat st.m_states.live with h | ⟨l, x, h⟩
  · simp [h]
  · rcases List.eq_nil_or_concat l with hl | ⟨k, y, hl⟩
    · simp [h, hl]
    · simp [h, hl, List.getElem_append_right]

theorem process_entry_handlers_nil {T F : Type} [DecidableEq T] (run : runner T F)
    (old_state new_state : T) (st : state_stack T F) (h : st.m_entry_handlers = []) :
    st.process_entry_handlers run old_state new_state = some st := by
  simp [state_stack.process_entry_handlers, h, entry_loop]

theorem process_exit_handlers_nil {T F : Type} [DecidableEq T] (run : runner T F)
    (old_ref : Nat) (new_state : T) (st : state_stack T F) (h : st.m_exit_handlers = []) :
    st.process_exit_handlers run old_ref new_state = some st := by
  simp [state_stack.process_exit_handlers, h, exit_loop]

/-- Without entry handlers `set` is the guarded `push_back`. -/
theorem set_no_handlers {T F : Type} [DecidableEq T] (run : runner T F) (s : T)
    (st : state_stack T F) (h : st.m_entry_handlers = []) :
    st.set run s =
      if s = st.history.getLast?.getD st.m_undefined_state then some st
      else some { st with m_states := st.m_states.push_back s } := by
  unfold state_stack.set
  simp only [get_eq, process_entry_handlers_nil run _ _ st h]
  split <;> simp_all

/-- Without exit handlers `clear()` on a non-empty vector pops and returns the top. -/
theorem clear_no_handlers {T F : Type} [DecidableEq T] (run : runner T F)
    (st : state_stack T F) (l : List T) (x : T) (h : st.m_exit_handlers = [])
    (hl : st.m_states.live = l ++ [x]) :
    st.clear run = some (x, { st with m_states := st.m_states.pop_back }) := by
  unfold state_stack.clear
  simp only [get_last_eq, process_exit_handlers_nil run _ _ st h]
  simp [vec.size, vec.deref, vec.slot, vec.back, vec.pop_back, hl, List.getElem_append_right,
    List.getElem?_append_right]

/-- An element of a list has a last occurrence. -/
theorem exists_last_occurrence {T : Type} {x : T} {l : List T} (h : x ∈ l) :
    ∃ pre post, l = pre ++ x :: post ∧ x ∉ post := by
  have hr : x ∈ l.reverse := List.mem_reverse.mpr h
  obtain ⟨as, bs, hl, hn⟩ := List.eq_append_cons_of_mem hr
  refine ⟨bs.reverse, as.reverse, ?_, ?_⟩
  · have := congrArg List.reverse hl
    simpa using this
  · simpa using hn

/-- The search of `clear(state)` finds the last occurrence. -/
theorem rfind_last_occurrence {T : Type} [DecidableEq T] (v : vec T) (x : T) (pre post : List T)
    (hl : v.live = pre ++ x :: post) (hn : x ∉ post) :
    v.rfind x = some post.length := by
  have hr : x ∉ post.reverse := by simpa using hn
  simp [vec.rfind, hl, List.indexOf_append_of_not_mem hr]

/-- Erasing the slot of the last occurrence. -/
theorem erase_last_occurrence {T : Type} (v : vec T) (x : T) (pre post : List T)
    (hl : v.live = pre ++ x :: post) :
    (v.erase (v.size - 1 - post.length)).live = pre ++ post := by
  have hi : v.size - 1 - post.length = pre.length := by
    simp [vec.size, hl]
  rw [hi]
  simp [vec.erase, hl, List.eraseIdx_append_of_length_le]

/-- The mid-stack branch of `clear(state)`, for a state below the top. -/
theorem clear_state_below_top {T F : Type} [DecidableEq T] (run : runner T F)
    (st : state_stack T F) (x : T) (pre post : List T)
    (hl : st.history = pre ++ x :: post) (hn : x ∉ post) (htop : st.history.getLast? ≠ some x) :
    st.clear_state run x =
      some { st with m_states := st.m_states.erase (st.m_states.size - 1 - post.length) } := by
  simp only [state_stack.history] at hl htop
  have hsz : ¬ st.m_states.size = 0 := by simp [vec.size, hl]
  unfold state_stack.clear_state
  rw [if_neg hsz, if_neg (by simpa [vec.back] using htop),
    rfind_last_occurrence st.m_states x pre post hl hn]

/-- The branch of `clear(state)` for a state that is not in the vector. -/
theorem clear_state_absent {T F : Type} [DecidableEq T] (run : runner T F)
    (st : state_stack T F) (x : T) (hx : x ∉ st.history) :
    st.clear_state run x = some st := by
  simp only [state_stack.history] at hx
  unfold state_stack.clear_state
  split
  · rfl
  · have hb : ¬ st.m_states.back = some x := by
      intro hb
      exact hx (List.mem_of_getLast?_eq_some hb)
    rw [if_neg hb]
    simp [vec.rfind, hx]

/-- The guard of `set`: a `set` of the value `get()` returns at once. -/
theorem set_same_state {T F : Type} [DecidableEq T] (run : runner T F)
    (st : state_stack T F) (s : T) (hs : st.get = some s) : st.set run s = some st := by
  simp [state_stack.set, hs]

/-- Without entry handlers a `set(s)` with `s` different from `get()` appends. -/
theorem set_pushes_fresh_state {T F : Type} [DecidableEq T] (run : runner T F)
    (st : state_stack T F) (s : T) (hentry : st.m_entry_handlers = [])
    (hs : st.get ≠ some s) :
    ∃ st1, st.set run s = some st1 ∧
      st1 = { st with m_states := st.m_states.push_back s } ∧
      st1.history = st.history ++ [s] ∧
      st1.count = st.count + 1 ∧
      st1.get = some s ∧
      st1.get_last = st.get := by
  have hne : ¬ s = st.history.getLast?.getD st.m_undefined_state := by
    intro h
    exact hs (by rw [get_eq, h])
  refine ⟨{ st with m_states := st.m_states.push_back s }, ?_, rfl, ?_, ?_, ?_, ?_⟩
  · rw [set_no_handlers run s st hentry, if_neg hne]
  · simp [state_stack.history, vec.push_back]
  · simp [state_stack.count, vec.size, vec.push_back]
  · simp [get_eq, state_stack.history, vec.push_back]
  · simp [get_eq, get_last_eq, state_stack.history, vec.push_back]

/-- Removing the last occurrence, written with `List.erase` on the reversed list. -/
theorem reverse_erase_last_occurrence {T : Type} [DecidableEq T] (x : T) (pre post : List T)
    (hn : x ∉ post) : ((pre ++ x :: post).reverse.erase x).reverse = pre ++ post := by
  have hr : x ∉ post.reverse := by simpa using hn
  simp [List.erase_append_right _ hr]

/-- The history after one call on a stack without handlers; the registries
stay empty and the sentinel stays the same. -/
theorem apply_no_handlers {T F : Type} [DecidableEq T] (run : runner T F)
    (st : state_stack T F) (c : call T)
    (hentry : st.m_entry_handlers = []) (hexit : st.m_exit_handlers = []) :
    ∃ st1, st.apply run c = some st1 ∧
      st1.m_entry_handlers = [] ∧ st1.m_exit_handlers = [] ∧
      st1.m_undefined_state = st.m_undefined_state ∧
      st1.history =
        match c with
        | call.set s =>
          if s = st.history.getLast?.getD st.m_undefined_state then st.history
          else st.history ++ [s]
        | call.clear => st.history.dropLast
        | call.clear_state x => (st.history.reverse.erase x).reverse
        | call.reset => [] := by
  cases c with
  | set s =>
    by_cases hs : s = st.history.getLast?.getD st.m_undefined_state
    · refine ⟨st, ?_, hentry, hexit, rfl, ?_⟩
      · simp only [state_stack.apply]
        rw [set_no_handlers run s st hentry, if_pos hs]
      · simp only [if_pos hs]
    · refine ⟨{ st with m_states := st.m_states.push_back s }, ?_, hentry, hexit, rfl, ?_⟩
      · simp only [state_stack.apply]
        rw [set_no_handlers run s st hentry, if_neg hs]
      · simp only [if_neg hs]
        rfl
  | clear =>
    rcases List.eq_nil_or_concat st.history with h0 | ⟨l, x, h1⟩
    · refine ⟨st, ?_, hentry, hexit, rfl, ?_⟩
      · simp only [state_stack.history] at h0
        simp [state_stack.apply, state_stack.clear, vec.size, h0]
      · simp [h0]
    · rw [List.concat_eq_append] at h1
      refine ⟨{ st with m_states := st.m_states.pop_back }, ?_, hentry, hexit, rfl, ?_⟩
      · simp only [state_stack.apply]
        rw [clear_no_handlers run st l x hexit h1]
      · rfl
  | clear_state x =>
    by_cases hx : x ∈ st.history
    · obtain ⟨pre, post, hl, hn⟩ := exists_last_occurrence hx
      rcases List.eq_nil_or_concat post with h0 | ⟨k, y, h1⟩
      · subst h0
        refine ⟨{ st with m_states := st.m_states.pop_back }, ?_, hentry, hexit, rfl, ?_⟩
        · have hsz : ¬ st.m_states.size = 0 := by
            simp only [state_stack.history] at hl
            simp [vec.size, hl]
          have hb : st.m_states.back = some x := by
            simp only [state_stack.history] at hl
            simp [vec.back, hl]
          simp only [state_stack.apply, state_stack.clear_state, if_neg hsz, if_pos hb]
          rw [clear_no_handlers run st pre x hexit hl]
        · simp only [hl]
          rw [reverse_erase_last_occurrence x pre [] hn]
          simp only [state_stack.history] at hl
          simp [state_stack.history, vec.pop_back, hl]
      · have htop : st.history.getLast? ≠ some x := by
          have hy : st.history.getLast? = some y := by
            rw [hl, h1, List.concat_eq_append,
              show pre ++ x :: (k ++ [y]) = (pre ++ x :: k) ++ [y] by simp,
              List.getLast?_concat]
          rw [hy]
          intro h
          apply hn
          rw [h1, ← Option.some.inj h]
          simp
        refine ⟨_, clear_state_below_top run st x pre post hl hn htop, hentry, hexit, rfl, ?_⟩
        simp only [hl]
        rw [reverse_erase_last_occurrence x pre post hn]
        exact erase_last_occurrence st.m_states x pre post hl
    · refine ⟨st, clear_state_absent run st x hx, hentry, hexit, rfl, ?_⟩
      have hr : x ∉ st.history.reverse := by simpa using hx
      simp [List.erase_of_not_mem hr]
  | reset =>
    exact ⟨st.reset, rfl, hentry, hexit, rfl, rfl⟩

/-- Calls from outside leave a freshly constructed stack without handlers and
with its sentinel. -/
theorem reachable_no_handlers {T F : Type} [DecidableEq T] (run : runner T F)
    (permitted : state_stack T F → call T → Prop) (u : T) (st : state_stack T F)
    (h : reachable run permitted (state_stack.new u) st) :
    st.m_entry_handlers = [] ∧ st.m_exit_handlers = [] ∧ st.m_undefined_state = u := by
  induction h with
  | start => exact ⟨rfl, rfl, rfl⟩
  | step c _ _ ha ih =>
    obtain ⟨st1, h1, he, hx, hu, _⟩ := apply_no_handlers run _ c ih.1 ih.2.1
    rw [h1] at ha
    cases ha
    exact ⟨he, hx, hu.trans ih.2.2⟩

/-- One call keeps the sentinel out of the history of a stack without handlers,
unless it is `set` of the sentinel on a non-empty history. -/
theorem apply_keeps_sentinel_out {T F : Type} [DecidableEq T] (run : runner T F)
    (st : state_stack T F) (c : call T)
    (hentry : st.m_entry_handlers = []) (hexit : st.m_exit_handlers = [])
    (hu : st.m_undefined_state ∉ st.history)
    (hp : c = call.set st.m_undefined_state → st.history = []) :
    ∃ st1, st.apply run c = some st1 ∧ st1.m_undefined_state ∉ st1.history := by
  obtain ⟨st1, h1, _, _, hu1, hh⟩ := apply_no_handlers run st c hentry hexit
  refine ⟨st1, h1, ?_⟩
  rw [hu1, hh]
  cases c with
  | set s =>
    by_cases hs : s = st.history.getLast?.getD st.m_undefined_state
    · simpa only [if_pos hs] using hu
    · simp only [if_neg hs]
      intro hm
      rcases List.mem_append.mp hm with hm | hm
      · exact hu hm
      · have hsu : s = st.m_undefined_state := (List.mem_singleton.mp hm).symm
        apply hs
        rw [hp (by rw [hsu]), hsu]
        rfl
  | clear => exact fun hm => hu (List.dropLast_subset _ hm)
  | clear_state x =>
    intro hm
    exact hu (List.mem_reverse.mp (List.mem_of_mem_erase (List.mem_reverse.mp hm)))
  | reset => simp

/-- One call keeps adjacent elements of the history of a stack without
handlers different, unless it is a `clear(state)` that takes an element away
from between two equal ones. -/
theorem apply_keeps_adjacent_different {T F : Type} [DecidableEq T] (run : runner T F)
    (st : state_stack T F) (c : call T)
    (hentry : st.m_entry_handlers = []) (hexit : st.m_exit_handlers = [])
    (hc : List.Chain' (fun a b => a ≠ b) st.history)
    (hp : ∀ x, c = call.clear_state x → ¬ joins_equal st.history x) :
    ∃ st1, st.apply run c = some st1 ∧ List.Chain' (fun a b => a ≠ b) st1.history := by
  obtain ⟨st1, h1, _, _, _, hh⟩ := apply_no_handlers run st c hentry hexit
  refine ⟨st1, h1, ?_⟩
  rw [hh]
  cases c with
  | set s =>
    by_cases hs : s = st.history.getLast?.getD st.m_undefined_state
    · simpa only [if_pos hs] using hc
    · simp only [if_neg hs]
      refine List.Chain'.append hc (List.chain'_singleton s) ?_
      intro a ha b hb
      rw [Option.mem_def] at ha
      have hb1 : s = b := by simpa using hb
      rw [ha] at hs
      intro hab
      exact hs (by simp [hab, hb1])
  | clear => exact List.Chain'.init hc
  | clear_state x =>
    by_cases hx : x ∈ st.history
    · obtain ⟨pre, post, hl, hn⟩ := exists_last_occurrence hx
      simp only [hl]
      rw [reverse_erase_last_occurrence x pre post hn]
      rw [hl] at hc
      refine List.Chain'.append (List.Chain'.left_of_append hc)
        (List.Chain'.tail (List.Chain'.right_of_append hc)) ?_
      intro a ha b hb hab
      obtain ⟨pre1, hpre⟩ := List.getLast?_eq_some_iff.mp (Option.mem_def.mp ha)
      obtain ⟨post1, hpost⟩ : ∃ post1, post = b :: post1 := by
        cases post with
        | nil => simp at hb
        | cons p post1 => exact ⟨post1, by simp at hb; rw [hb]⟩
      apply hp x rfl
      refine ⟨pre1, a, post1, ?_, ?_⟩
      · rw [hl, hpre, hpost, hab]
        simp
      · rw [hab, ← hpost]
        exact hn
    · have hr : x ∉ st.history.reverse := by simpa using hx
      simpa [List.erase_of_not_mem hr] using hc
  | reset => exact List.chain'_nil

/-! ## The stack without handlers -/

/-- C1: with no handlers registered, `set(s)` with `s` different from `get()`
appends `s` to the end of the history: `count()` grows by exactly 1, `get()`
is `s` and `get_last()` is the value `get()` had before the call; the other
members are untouched.  In particular, on a freshly constructed stack with
sentinel `u`, after `set(a); set(b); set(c)` with `a`, `b`, `c` pairwise
distinct and different from `u`: `get() == c`, `get_last() == b`,
`count() == 3`. -/
theorem set_appends_new_state {T F : Type} [DecidableEq T] (run : runner T F) :
    (∀ (st : state_stack T F) (s : T),
      st.m_entry_handlers = [] → st.m_exit_handlers = [] → st.get ≠ some s →
      ∃ st1, st.set run s = some st1 ∧
        st1 = { st with m_states := st.m_states.push_back s } ∧
        st1.history = st.history ++ [s] ∧
        st1.count = st.count + 1 ∧
        st1.get = some s ∧
        st1.get_last = st.get) ∧
    (∀ u a b c : T, a ≠ b → a ≠ c → b ≠ c → a ≠ u → b ≠ u → c ≠ u →
      ∃ st3, (state_stack.new u : state_stack T F).apply_all run
          [call.set a, call.set b, call.set c] = some st3 ∧
        st3.history = [a, b, c] ∧
        st3.get = some c ∧ st3.get_last = some b ∧ st3.count = 3) := by
  constructor
  · intro st s hentry _ hs
    exact set_pushes_fresh_state run st s hentry hs
  · intro u a b c hab hac hbc hau hbu hcu
    have hba : ¬ b = a := fun h => hab h.symm
    have hcb : ¬ c = b := fun h => hbc h.symm
    refine ⟨{ (state_stack.new u : state_stack T F) with
      m_states := { live := [a, b, c], stale := [], block := 3 } }, ?_, ?_⟩
    · simp [state_stack.apply_all, state_stack.apply, set_no_handlers, state_stack.new,
        state_stack.history, vec.push_back, hau, hba, hcb]
    · simp [get_eq, get_last_eq, state_stack.history, state_stack.count, vec.size]

/-- Witness for C1: `set(docked)` on the history `[running]`. -/
theorem set_appends_new_state_witness :
    ∃ st1, ({ (state_stack.new run_state.undefined : state_stack run_state Unit) with
          m_states := { live := [run_state.running], stale := [] } }).set silent
          run_state.docked = some st1 ∧
      st1 = { (state_stack.new run_state.undefined : state_stack run_state Unit) with
          m_states := { live := [run_state.running, run_state.docked], stale := [],
                        block := 1 } } ∧
      st1.history = [run_state.running] ++ [run_state.docked] ∧
      st1.count = 1 + 1 ∧
      st1.get = some run_state.docked ∧
      st1.get_last = some run_state.running :=
  (set_appends_new_state silent).1
    { (state_stack.new run_state.undefined : state_stack run_state Unit) with
      m_states := { live := [run_state.running], stale := [] } }
    run_state.docked rfl rfl (by decide)

/-- C2: with no handlers registered, `clear()` on a history `h ++ [x]`
returns `x` and leaves the history equal to `h`: `count()` decreases by
exactly 1 and `get()` becomes the former `get_last()`; `clear()` on an empty
history returns the sentinel and leaves the stack, so also its empty history,
as it was. -/
theorem clear_pops_top {T F : Type} [DecidableEq T] (run : runner T F) :
    (∀ (st : state_stack T F) (h : List T) (x : T),
      st.m_entry_handlers = [] → st.m_exit_handlers = [] → st.history = h ++ [x] →
      ∃ st1, st.clear run = some (x, st1) ∧
        st1.history = h ∧
        st1.count + 1 = st.count ∧
        st1.get = st.get_last) ∧
    (∀ (st : state_stack T F),
      st.m_entry_handlers = [] → st.m_exit_handlers = [] → st.history = [] →
      st.clear run = some (st.m_undefined_state, st)) := by
  constructor
  · intro st h x _ hexit hh
    refine ⟨{ st with m_states := st.m_states.pop_back }, ?_, ?_, ?_, ?_⟩
    · exact clear_no_handlers run st h x hexit hh
    · simp only [state_stack.history] at hh
      simp [state_stack.history, vec.pop_back, hh]
    · simp only [state_stack.history] at hh
      simp [state_stack.count, vec.size, vec.pop_back, hh]
    · simp [get_eq, get_last_eq, state_stack.history, vec.pop_back]
  · intro st _ _ hh
    simp only [state_stack.history] at hh
    simp [state_stack.clear, vec.size, hh]

/-- Witness for C2: `clear()` on the history `[running, recording]`. -/
theorem clear_pops_top_witness :
    ∃ st1, ({ (state_stack.new run_state.undefined : state_stack run_state Unit) with
          m_states := { live := [run_state.running, run_state.recording], stale := [] } }).clear
          silent = some (run_state.recording, st1) ∧
      st1.history = [run_state.running] ∧
      st1.count + 1 = 2 ∧
      st1.get = some run_state.running :=
  (clear_pops_top silent).1
    { (state_stack.new run_state.undefined : state_stack run_state Unit) with
      m_states := { live := [run_state.running, run_state.recording], stale := [] } }
    [run_state.running] run_state.recording rfl rfl rfl

/-- C3: `get()` returns the last element of the history, or the sentinel when
the history is empty; `get_last()` returns the element immediately below the
last one, or the sentinel when the history has fewer than 2 elements.  Both
results are `some`: no read of `m_states` is out of bounds.  Both queries are
functions of the stack object alone and return nothing but the value, so the
history is as it was. -/
theorem get_and_get_last_spec {T F : Type} (st : state_stack T F) :
    st.get = some (st.history.getLast?.getD st.m_undefined_state) ∧
    st.get_last = some (st.history.dropLast.getLast?.getD st.m_undefined_state) ∧
    (st.history = [] → st.get = some st.m_undefined_state) ∧
    (∀ h x, st.history = h ++ [x] → st.get = some x) ∧
    (st.history.length < 2 → st.get_last = some st.m_undefined_state) ∧
    (∀ h y x, st.history = h ++ [y, x] → st.get_last = some y) := by
  refine ⟨get_eq st, get_last_eq st, ?_, ?_, ?_, ?_⟩
  · intro h
    simp [get_eq, h]
  · intro h x hh
    simp [get_eq, hh]
  · intro h
    rw [get_last_eq]
    rcases List.eq_nil_or_concat st.history with h0 | ⟨l, x, h1⟩
    · simp [h0]
    · rcases List.eq_nil_or_concat l with h2 | ⟨k, y, h3⟩
      · simp [h1, h2]
      · simp [h1, h3] at h
  · intro h y x hh
    have : h ++ [y, x] = (h ++ [y]) ++ [x] := by simp
    simp [get_last_eq, hh, this, -List.append_assoc]

/-- Witness for C3: the history `[running, docked]`. -/
theorem get_and_get_last_spec_witness :
    ({ (state_stack.new run_state.undefined : state_stack run_state Unit) with
        m_states := { live := [run_state.running, run_state.docked], stale := [] } }).get
      = some run_state.docked ∧
    ({ (state_stack.new run_state.undefined : state_stack run_state Unit) with
        m_states := { live := [run_state.running, run_state.docked], stale := [] } }).get_last
      = some run_state.running ∧
    (state_stack.new run_state.undefined : state_stack run_state Unit).get
      = some run_state.undefined ∧
    ({ (state_stack.new run_state.undefined : state_stack run_state Unit) with
        m_states := { live := [run_state.running], stale := [] } }).get_last
      = some run_state.undefined :=
  ⟨(get_and_get_last_spec _).2.2.2.1 [run_state.running] run_state.docked rfl,
   (get_and_get_last_spec _).2.2.2.2.2 [] run_state.running run_state.docked rfl,
   (get_and_get_last_spec _).2.2.1 rfl,
   (get_and_get_last_spec _).2.2.2.2.1 (by decide)⟩

/-- C4: for a history (non-empty or not) and a state `x` that is not its top,
`clear(x)` removes exactly the most recent occurrence of `x` (the one with no
`x` above it) and keeps every other element in its order, and it leaves the
stack as it was when `x` does not occur.  When `x` occurs, `count()`
decreases by exactly 1 and `get()` is unchanged. -/
theorem clear_state_removes_last_occurrence {T F : Type} [DecidableEq T] (run : runner T F)
    (st : state_stack T F) (x : T) (htop : st.history.getLast? ≠ some x) :
    (x ∈ st.history →
      ∃ pre post st1, st.history = pre ++ x :: post ∧ x ∉ post ∧
        st.clear_state run x = some st1 ∧
        st1.history = pre ++ post ∧
        st1.count + 1 = st.count ∧
        st1.get = st.get) ∧
    (x ∉ st.history → st.clear_state run x = some st) := by
  constructor
  · intro hx
    obtain ⟨pre, post, hl, hn⟩ := exists_last_occurrence hx
    have hpost : post ≠ [] := by
      intro h
      apply htop
      simp [hl, h]
    have hlive : (st.m_states.erase (st.m_states.size - 1 - post.length)).live = pre ++ post :=
      erase_last_occurrence st.m_states x pre post hl
    refine ⟨pre, post, _, hl, hn, clear_state_below_top run st x pre post hl hn htop, ?_, ?_, ?_⟩
    · simpa [state_stack.history] using hlive
    · show (st.m_states.erase (st.m_states.size - 1 - post.length)).live.length + 1
        = st.m_states.live.length
      rw [hlive, show st.m_states.live = pre ++ x :: post from hl]
      simp only [List.length_append, List.length_cons]
      omega
    · rw [get_eq, get_eq]
      show some ((st.m_states.erase (st.m_states.size - 1 - post.length)).live.getLast?.getD _)
        = some (st.m_states.live.getLast?.getD _)
      rw [hlive, show st.m_states.live = pre ++ x :: post from hl,
        List.getLast?_append_of_ne_nil pre hpost,
        List.getLast?_append_of_ne_nil pre (List.cons_ne_nil x post), List.getLast?_cons,
        List.getLast?_eq_getLast post hpost]
      simp
  · intro hx
    exact clear_state_absent run st x hx

/-- Witness for C4: `clear(running)` on `[running, docked, recording]` leaves
`[docked, recording]`. -/
theorem clear_state_removes_last_occurrence_witness :
    ∃ pre post st1, [run_state.running, run_state.docked, run_state.recording]
        = pre ++ run_state.running :: post ∧ run_state.running ∉ post ∧
      ({ (state_stack.new run_state.undefined : state_stack run_state Unit) with
          m_states := { live := [run_state.running, run_state.docked, run_state.recording],
                        stale := [] } }).clear_state silent run_state.running = some st1 ∧
      st1.history = pre ++ post ∧
      st1.count + 1 = 3 ∧
      st1.get = some run_state.recording :=
  (clear_state_removes_last_occurrence silent
    { (state_stack.new run_state.undefined : state_stack run_state Unit) with
      m_states := { live := [run_state.running, run_state.docked, run_state.recording],
                    stale := [] } }
    run_state.running (by decide)).1 (by decide)

/-! ## Handler dispatch -/

/-- C6: for every history, every registry, every behaviour `run` of the
handlers and every state `x` that is not the top of the history, `clear(x)`
returns without calling a handler: no record is added to `invoked`, and the
outcome is the same whatever the handlers would do, also for handlers that
never return (`fun _ _ _ _ => none`). -/
theorem clear_state_below_top_calls_no_handler {T F : Type} [DecidableEq T] (run : runner T F)
    (st : state_stack T F) (x : T) (htop : st.history.getLast? ≠ some x) :
    ∃ st1, st.clear_state run x = some st1 ∧
      st1.invoked = st.invoked ∧
      st.clear_state (fun _ _ _ _ => none) x = some st1 := by
  by_cases hx : x ∈ st.history
  · obtain ⟨pre, post, hl, hn⟩ := exists_last_occurrence hx
    exact ⟨_, clear_state_below_top run st x pre post hl hn htop, rfl,
      clear_state_below_top _ st x pre post hl hn htop⟩
  · exact ⟨st, clear_state_absent run st x hx, rfl, clear_state_absent _ st x hx⟩

/-- Witness for C6: `clear(running)` on `sample_stack`, history
`[running, docked]`, with a wildcard and a `running` exit handler registered. -/
theorem clear_state_below_top_calls_no_handler_witness :
    ∃ st1, sample_stack.clear_state silent run_state.running = some st1 ∧
      st1.invoked = [] ∧
      sample_stack.clear_state (fun _ _ _ _ => none) run_state.running = some st1 :=
  clear_state_below_top_calls_no_handler silent sample_stack run_state.running (by decide)

/-- C10: for every history, every registry, every behaviour `run` of the
handlers and every state `s` with `s == get()`, `set(s)` returns the stack
object as it was: the history is unchanged and no handler is called, not even
a wildcard handler.  This includes `set` of the sentinel on an empty history. -/
theorem set_of_current_state_is_noop {T F : Type} [DecidableEq T] (run : runner T F)
    (st : state_stack T F) :
    (∀ s : T, st.get = some s → st.set run s = some st) ∧
    (st.history = [] → st.set run st.m_undefined_state = some st) := by
  refine ⟨fun s hs => set_same_state run st s hs, ?_⟩
  intro h
  apply set_same_state
  simp [get_eq, h]

/-- Witness for C10: `set(docked)` on `sample_stack`, whose top is `docked`
and which has a wildcard entry handler, with handlers that never return. -/
theorem set_of_current_state_is_noop_witness :
    sample_stack.set (fun _ _ _ _ => none) run_state.docked = some sample_stack ∧
    ({ sample_stack with m_states := { live := [], stale := [] } }).set (fun _ _ _ _ => none)
      run_state.undefined
      = some { sample_stack with m_states := { live := [], stale := [] } } :=
  ⟨(set_of_current_state_is_noop _ sample_stack).1 run_state.docked rfl,
   (set_of_current_state_is_noop _
     { sample_stack with m_states := { live := [], stale := [] } }).2 rfl⟩

/-! ## Repeated pushes -/

/-- C9 as stated fails: on the history `[running]` (no handlers), `set(running)`
twice leaves `count()` at 1, not at 2, because already the first call is
stopped by the guard `new_state == old_state`.  Hence the claim does not hold
for every state and every history. -/
theorem idempotent_push_counterexample :
    (single_set_stack.count = 1 ∧
      single_set_stack.apply_all silent [call.set run_state.running, call.set run_state.running]
        = some single_set_stack) ∧
    ¬ (∀ (st : state_stack run_state Unit) (s : run_state),
        st.m_entry_handlers = [] → st.m_exit_handlers = [] →
        ∃ st2, st.apply_all silent [call.set s, call.set s] = some st2 ∧
          st2.count = st.count + 1 ∧ st2.get = some s) := by
  refine ⟨⟨rfl, rfl⟩, ?_⟩
  intro h
  obtain ⟨st2, h2, hc, _⟩ := h single_set_stack run_state.running rfl rfl
  have h3 : single_set_stack.apply_all silent
      [call.set run_state.running, call.set run_state.running] = some single_set_stack := rfl
  rw [h3] at h2
  cases h2
  exact absurd hc (by decide)

/-- C9 amended: with no handlers registered, for every state `s` and every
history, the second of two consecutive `set(s)` calls is a no-op and after
them `get() == s`; `count()` is exactly 1 greater than before the first call
when `s` differed from `get()` before it, and the stack is unchanged when `s`
was `get()` already. -/
theorem idempotent_push {T F : Type} [DecidableEq T] (run : runner T F)
    (st : state_stack T F) (s : T)
    (hentry : st.m_entry_handlers = []) (_hexit : st.m_exit_handlers = []) :
    ∃ st1, st.set run s = some st1 ∧ st1.set run s = some st1 ∧
      st.apply_all run [call.set s, call.set s] = some st1 ∧
      st1.get = some s ∧
      (st.get ≠ some s → st1.count = st.count + 1) ∧
      (st.get = some s → st1 = st) := by
  by_cases hs : st.get = some s
  · have h1 := set_same_state run st s hs
    refine ⟨st, h1, h1, ?_, hs, fun h => absurd hs h, fun _ => rfl⟩
    simp [state_stack.apply_all, state_stack.apply, h1]
  · obtain ⟨st1, h1, _, _, hc, hg, _⟩ := (set_pushes_fresh_state run st s hentry hs)
    have h2 := set_same_state run st1 s hg
    refine ⟨st1, h1, h2, ?_, hg, fun _ => hc, fun h => absurd h hs⟩
    simp [state_stack.apply_all, state_stack.apply, h1, h2]

/-- Witness for C9 amended: `set(docked)` twice on the history `[running]`. -/
theorem idempotent_push_witness :
    ∃ st1, single_set_stack.set silent run_state.docked = some st1 ∧
      st1.set silent run_state.docked = some st1 ∧
      single_set_stack.apply_all silent [call.set run_state.docked, call.set run_state.docked]
        = some st1 ∧
      st1.get = some run_state.docked ∧
      (single_set_stack.get ≠ some run_state.docked → st1.count = 1 + 1) ∧
      (single_set_stack.get = some run_state.docked → st1 = single_set_stack) :=
  idempotent_push silent single_set_stack run_state.docked rfl rfl

/-! ## Invariants of the history -/

/-- C8 as stated fails: on a fresh stack with sentinel `undefined`,
`set(running); set(undefined)` leaves the history `[running, undefined]`: the
guard of `set` compares the argument with `get()`, which is `running`, so the
sentinel is pushed like any other value. -/
theorem sentinel_in_history_counterexample :
    (state_stack.new run_state.undefined : state_stack run_state Unit).apply_all silent
        [call.set run_state.running, call.set run_state.undefined]
      = some { (state_stack.new run_state.undefined : state_stack run_state Unit) with
          m_states := { live := [run_state.running, run_state.undefined], stale := [],
                        block := 2 } } ∧
    ¬ (∀ st : state_stack run_state Unit,
        reachable silent (fun _ _ => True) (state_stack.new run_state.undefined) st →
        run_state.undefined ∉ st.history) := by
  refine ⟨rfl, ?_⟩
  intro h
  have hr : reachable silent (fun _ _ => True)
      (state_stack.new run_state.undefined : state_stack run_state Unit)
      { (state_stack.new run_state.undefined : state_stack run_state Unit) with
        m_states := { live := [run_state.running, run_state.undefined], stale := [],
                      block := 2 } } :=
    reachable.step (call.set run_state.undefined)
      (reachable.step (call.set run_state.running) reachable.start trivial rfl) trivial rfl
  exact h _ hr (by decide)

/-- C8 amended: with no handlers registered, a call keeps the sentinel out of
the history unless it is `set` of the sentinel on a non-empty history (on an
empty history that call is a no-op); hence in every history reachable from a
freshly constructed stack by `set`, `clear()`, `clear(state)` and `reset`
calls in which `set` is given the sentinel only while the history is empty,
no element equals the sentinel. -/
theorem sentinel_stays_out_of_history {T F : Type} [DecidableEq T] (run : runner T F) :
    (∀ (st : state_stack T F) (c : call T),
      st.m_entry_handlers = [] → st.m_exit_handlers = [] →
      st.m_undefined_state ∉ st.history →
      (c = call.set st.m_undefined_state → st.history = []) →
      ∃ st1, st.apply run c = some st1 ∧ st1.m_undefined_state ∉ st1.history) ∧
    (∀ (u : T) (st : state_stack T F),
      reachable run (fun st c => c = call.set st.m_undefined_state → st.history = [])
        (state_stack.new u) st →
      u ∉ st.history) := by
  refine ⟨fun st c he hx hu hp => apply_keeps_sentinel_out run st c he hx hu hp, ?_⟩
  intro u st h
  induction h with
  | start => simp [state_stack.new, state_stack.history]
  | step c hr hp ha ih =>
    obtain ⟨he, hx, hu⟩ := reachable_no_handlers run _ u _ hr
    obtain ⟨st1, h1, hn⟩ := apply_keeps_sentinel_out run _ c he hx (by rw [hu]; exact ih) hp
    obtain ⟨_, _, hu1⟩ := reachable_no_handlers run _ u _ (reachable.step c hr hp ha)
    rw [h1] at ha
    cases ha
    rw [← hu1]
    exact hn

/-- Witness for C8 amended: `set(docked)` on the history `[running]`, and the
stack reached by `set(undefined); set(running); set(docked)` from a fresh
stack with sentinel `undefined`. -/
theorem sentinel_stays_out_of_history_witness :
    (∃ st1, single_set_stack.apply silent (call.set run_state.docked) = some st1 ∧
      st1.m_undefined_state ∉ st1.history) ∧
    run_state.undefined ∉
      ({ (state_stack.new run_state.undefined : state_stack run_state Unit) with
        m_states := { live := [run_state.running, run_state.docked], stale := [],
                      block := 2 } }).history :=
  ⟨(sentinel_stays_out_of_history silent).1 single_set_stack (call.set run_state.docked)
      rfl rfl (by decide) (by decide),
   (sentinel_stays_out_of_history silent).2 run_state.undefined _
      (reachable.step (call.set run_state.docked)
        (reachable.step (call.set run_state.running)
          (reachable.step (call.set run_state.undefined) reachable.start (fun _ => rfl) rfl)
          (fun _ => rfl) rfl)
        (by decide) rfl)⟩

/-- C7 as stated fails: on a fresh stack,
`set(running); set(docked); set(running); clear(docked)` leaves the history
`[running, running]`: `docked` is not the top, so `clear(docked)` erases it
from the middle and the two `running` become adjacent. -/
theorem adjacent_equal_counterexample :
    (state_stack.new run_state.undefined : state_stack run_state Unit).apply_all silent
        [call.set run_state.running, call.set run_state.docked, call.set run_state.running,
         call.clear_state run_state.docked]
      = some { (state_stack.new run_state.undefined : state_stack run_state Unit) with
          m_states := { live := [run_state.running, run_state.running],
                        stale := [run_state.running], block := 3 } } ∧
    ¬ (∀ st : state_stack run_state Unit,
        reachable silent (fun _ _ => True) (state_stack.new run_state.undefined) st →
        List.Chain' (fun a b => a ≠ b) st.history) := by
  refine ⟨rfl, ?_⟩
  intro h
  have hr : reachable silent (fun _ _ => True)
      (state_stack.new run_state.undefined : state_stack run_state Unit)
      { (state_stack.new run_state.undefined : state_stack run_state Unit) with
        m_states := { live := [run_state.running, run_state.running],
                      stale := [run_state.running], block := 3 } } :=
    reachable.step (call.clear_state run_state.docked)
      (reachable.step (call.set run_state.running)
        (reachable.step (call.set run_state.docked)
          (reachable.step (call.set run_state.running) reachable.start trivial rfl)
          trivial rfl)
        trivial rfl)
      trivial rfl
  have hc := h _ hr
  simp [state_stack.history] at hc

/-- C7 amended: with no handlers registered, `set`, `clear()` and `reset`
preserve "no two adjacent elements are equal", and so does `clear(state)`
unless the occurrence it removes lies directly between two equal elements;
hence the property holds in every history reachable from a freshly
constructed stack by `set`, `clear()`, `clear(state)` and `reset` calls none
of which is such a `clear(state)`. -/
theorem adjacent_elements_differ {T F : Type} [DecidableEq T] (run : runner T F) :
    (∀ (st : state_stack T F) (c : call T),
      st.m_entry_handlers = [] → st.m_exit_handlers = [] →
      List.Chain' (fun a b => a ≠ b) st.history →
      (∀ x, c = call.clear_state x → ¬ joins_equal st.history x) →
      ∃ st1, st.apply run c = some st1 ∧ List.Chain' (fun a b => a ≠ b) st1.history) ∧
    (∀ (u : T) (st : state_stack T F),
      reachable run (fun st c => ∀ x, c = call.clear_state x → ¬ joins_equal st.history x)
        (state_stack.new u) st →
      List.Chain' (fun a b => a ≠ b) st.history) := by
  refine ⟨fun st c he hx hc hp => apply_keeps_adjacent_different run st c he hx hc hp, ?_⟩
  intro u st h
  induction h with
  | start => exact List.chain'_nil
  | step c hr hp ha ih =>
    obtain ⟨he, hx, _⟩ := reachable_no_handlers run _ u _ hr
    obtain ⟨st1, h1, hn⟩ := apply_keeps_adjacent_different run _ c he hx ih hp
    rw [h1] at ha
    cases ha
    exact hn

/-- Witness for C7 amended: `clear(docked)` on the history
`[running, docked, recording]`, where the neighbours of `docked` differ. -/
theorem adjacent_elements_differ_witness :
    (∃ st1, ({ (state_stack.new run_state.undefined : state_stack run_state Unit) with
          m_states := { live := [run_state.running, run_state.docked, run_state.recording],
                        stale := [] } }).apply silent (call.clear_state run_state.docked)
          = some st1 ∧
      List.Chain' (fun a b => a ≠ b) st1.history) ∧
    List.Chain' (fun a b => a ≠ b)
      ({ (state_stack.new run_state.undefined : state_stack run_state Unit) with
        m_states := { live := [run_state.running, run_state.docked], stale := [],
                      block := 2 } }).history :=
  ⟨(adjacent_elements_differ silent).1
      { (state_stack.new run_state.undefined : state_stack run_state Unit) with
        m_states := { live := [run_state.running, run_state.docked, run_state.recording],
                      stale := [] } }
      (call.clear_state run_state.docked) rfl rfl (by simp [state_stack.history])
      (fun x hx hj => by
        cases hx
        obtain ⟨pre, a, post, hl, _⟩ := hj
        rcases pre with _ | ⟨p, _ | ⟨q, _ | ⟨r, pre⟩⟩⟩ <;> simp [state_stack.history] at hl
        obtain ⟨h1, h2, _⟩ := hl
        subst h1
        cases h2),
   (adjacent_elements_differ silent).2 run_state.undefined _
      (reachable.step (call.set run_state.docked)
        (reachable.step (call.set run_state.running) reachable.start
          (fun _ hx => by cases hx) rfl)
        (fun _ hx => by cases hx) rfl)⟩

/-! ## Queries, `clear(state)` of the top, `reset` -/

/-- C14: for every non-empty history whose top equals `x`, every registry and
every behaviour `run` of the handlers, `clear(x)` does what `clear()` does:
it returns exactly when `clear()` returns, and then with the same stack
object, so with the same history and the same records of exit-handler calls. -/
theorem clear_state_of_top_is_clear {T F : Type} [DecidableEq T] (run : runner T F)
    (st : state_stack T F) (x : T) (htop : st.history.getLast? = some x) :
    st.clear_state run x = (st.clear run).map Prod.snd ∧
    (∀ r, st.clear run = some r →
      ∃ st1, st.clear_state run x = some st1 ∧ st1 = r.2 ∧
        st1.history = r.2.history ∧ st1.invoked = r.2.invoked) := by
  have hsz : ¬ st.m_states.size = 0 := by
    intro h
    simp only [vec.size, List.length_eq_zero] at h
    simp [state_stack.history, h] at htop
  have hb : st.m_states.back = some x := htop
  have h1 : st.clear_state run x = (st.clear run).map Prod.snd := by
    unfold state_stack.clear_state
    rw [if_neg hsz, if_pos hb]
    cases st.clear run <;> rfl
  refine ⟨h1, ?_⟩
  intro r hr
  refine ⟨r.2, ?_, rfl, rfl, rfl⟩
  rw [h1, hr]
  rfl

/-- Witness for C14: `clear(docked)` and `clear()` on `sample_stack`, whose top
is `docked`. -/
theorem clear_state_of_top_is_clear_witness :
    sample_stack.clear_state silent run_state.docked
      = (sample_stack.clear silent).map Prod.snd ∧
    (∀ r, sample_stack.clear silent = some r →
      ∃ st1, sample_stack.clear_state silent run_state.docked = some st1 ∧ st1 = r.2 ∧
        st1.history = r.2.history ∧ st1.invoked = r.2.invoked) :=
  clear_state_of_top_is_clear silent sample_stack run_state.docked rfl

/-- C15: `is_state_set(s)` is true if and only if `s` occurs somewhere in the
history, at any position; in particular it is false for every `s` when the
history is empty. -/
theorem is_state_set_iff_mem {T F : Type} [DecidableEq T] (st : state_stack T F) (s : T) :
    (st.is_state_set s = true ↔ s ∈ st.history) ∧
    (∀ pre post, st.history = pre ++ s :: post → st.is_state_set s = true) ∧
    (st.history = [] → st.is_state_set s = false) := by
  have h1 : st.is_state_set s = true ↔ s ∈ st.history := by
    have hany : ∀ l : List T, l.any (fun item => decide (item = s)) = true ↔ s ∈ l := by
      intro l
      rw [List.any_eq_true]
      constructor
      · rintro ⟨y, hy, hd⟩
        rw [← of_decide_eq_true hd]
        exact hy
      · intro hm
        exact ⟨s, hm, decide_eq_true rfl⟩
    unfold state_stack.is_state_set state_stack.history vec.size
    rcases hl : st.m_states.live with _ | ⟨a, l⟩
    · simp
    · rw [if_neg (by simp)]
      exact hany (a :: l)
  refine ⟨h1, ?_, ?_⟩
  · intro pre post h
    rw [h1, h]
    simp
  · intro h
    cases hb : st.is_state_set s
    · rfl
    · rw [h1, h] at hb
      simp at hb

/-- Witness for C15: `docked` is set in `[running, docked, recording]`, and
nothing is set in a fresh stack. -/
theorem is_state_set_iff_mem_witness :
    ({ (state_stack.new run_state.undefined : state_stack run_state Unit) with
        m_states := { live := [run_state.running, run_state.docked, run_state.recording],
                      stale := [] } }).is_state_set run_state.docked = true ∧
    (state_stack.new run_state.undefined : state_stack run_state Unit).is_state_set
      run_state.uploading = false :=
  ⟨(is_state_set_iff_mem _ run_state.docked).2.1 [run_state.running] [run_state.recording] rfl,
   (is_state_set_iff_mem _ run_state.uploading).2.2 rfl⟩

/-- C17: for every history and every registry, `reset()` leaves the history
empty (`count() == 0`, `get()` and `get_last()` are the sentinel,
`is_state_set` is false for every state), adds no record of a handler call,
and leaves the sentinel, the display table, the label and both registries as
they were. -/
theorem reset_spec {T F : Type} [DecidableEq T] (st : state_stack T F) :
    st.reset.history = [] ∧
    st.reset.count = 0 ∧
    st.reset.get = some st.m_undefined_state ∧
    st.reset.get_last = some st.m_undefined_state ∧
    (∀ s, st.reset.is_state_set s = false) ∧
    st.reset.invoked = st.invoked ∧
    st.reset.m_undefined_state = st.m_undefined_state ∧
    st.reset.m_state_strings = st.m_state_strings ∧
    st.reset.m_label = st.m_label ∧
    st.reset.m_entry_handlers = st.m_entry_handlers ∧
    st.reset.m_exit_handlers = st.m_exit_handlers := by
  refine ⟨rfl, rfl, rfl, rfl, fun _ => rfl, rfl, rfl, rfl, rfl, rfl, rfl⟩

/-- The search of `display_state` stops at the first row with the key. -/
theorem find_first_row {T : Type} [DecidableEq T] (s : T) (pre : List (T × String))
    (p : T × String) (post : List (T × String)) (hpre : ∀ q ∈ pre, q.1 ≠ s) (hp : p.1 = s) :
    (pre ++ p :: post).find? (fun q => decide (q.1 = s)) = some p := by
  induction pre with
  | nil => simp [hp]
  | cons a l ih =>
    have ha : ¬ a.1 = s := hpre a (List.mem_cons_self a l)
    simp only [List.cons_append, List.find?_cons, decide_eq_false ha]
    exact ih (fun q hq => hpre q (List.mem_cons_of_mem a hq))

/-- A table with a row for the key has a first such row. -/
theorem exists_first_row {T : Type} (s : T) (table : List (T × String))
    (h : ¬ ∀ p ∈ table, p.1 ≠ s) :
    ∃ pre p post, table = pre ++ p :: post ∧ (∀ q ∈ pre, q.1 ≠ s) ∧ p.1 = s := by
  induction table with
  | nil => exact absurd (fun p hp => by simp at hp) h
  | cons a l ih =>
    by_cases ha : a.1 = s
    · exact ⟨[], a, l, rfl, fun q hq => by simp at hq, ha⟩
    · have hl : ¬ ∀ p ∈ l, p.1 ≠ s := by
        intro hall
        apply h
        intro p hp
        rcases List.mem_cons.mp hp with rfl | hp
        · exact ha
        · exact hall p hp
      obtain ⟨pre, p, post, ht, hpre, hp⟩ := ih hl
      refine ⟨a :: pre, p, post, by rw [ht]; rfl, ?_, hp⟩
      intro q hq
      rcases List.mem_cons.mp hq with rfl | hq
      · exact ha
      · exact hpre q hq

/-- Without a row for the key `display_state` answers `"Unknown"`. -/
theorem display_state_absent {T F : Type} [DecidableEq T] (st : state_stack T F) (s : T)
    (h : ∀ p ∈ st.m_state_strings, p.1 ≠ s) : st.display_state s = "Unknown" := by
  have hf : st.m_state_strings.find? (fun q => decide (q.1 = s)) = none := by
    rw [List.find?_eq_none]
    intro q hq
    simpa using h q hq
  simp [state_stack.display_state, hf]

/-- With a row for the key `display_state` answers the label of the first one. -/
theorem display_state_first_row {T F : Type} [DecidableEq T] (st : state_stack T F) (s : T)
    (pre : List (T × String)) (p : T × String) (post : List (T × String))
    (ht : st.m_state_strings = pre ++ p :: post) (hpre : ∀ q ∈ pre, q.1 ≠ s) (hp : p.1 = s) :
    st.display_state s = p.2 := by
  simp [state_stack.display_state, ht, find_first_row s pre p post hpre hp]

/-- C16 as stated fails: with the table `[(running, "Unknown")]`,
`display_state(running)` returns `"Unknown"` although the table has a pair
with key `running`; "only if" does not hold. -/
theorem display_unknown_counterexample :
    (unknown_label_stack.m_state_strings = [(run_state.running, "Unknown")] ∧
      unknown_label_stack.display_state run_state.running = "Unknown") ∧
    ¬ (∀ (st : state_stack run_state Unit) (s : run_state),
        st.display_state s = "Unknown" ↔ ∀ p ∈ st.m_state_strings, p.1 ≠ s) := by
  refine ⟨⟨rfl, rfl⟩, ?_⟩
  intro h
  have h1 := (h unknown_label_stack run_state.running).mp rfl
  exact h1 (run_state.running, "Unknown") (List.mem_singleton.mpr rfl) rfl

/-- C16 amended: `display_state(s)` returns `"Unknown"` when no pair of the
table has key `s` (in particular on a stack whose table was never set), and
otherwise the label of the first pair whose key is `s`; so it returns
`"Unknown"` if and only if no pair has key `s` or the first such pair carries
the label `"Unknown"` itself.  The result depends on the table alone, not on
the history, and `state_strings` installs the table it is given. -/
theorem display_state_spec {T F : Type} [DecidableEq T] (st : state_stack T F) (s : T) :
    ((∀ p ∈ st.m_state_strings, p.1 ≠ s) → st.display_state s = "Unknown") ∧
    (∀ pre p post, st.m_state_strings = pre ++ p :: post → (∀ q ∈ pre, q.1 ≠ s) → p.1 = s →
      st.display_state s = p.2) ∧
    (st.display_state s = "Unknown" ↔
      (∀ p ∈ st.m_state_strings, p.1 ≠ s) ∨
      ∃ pre p post, st.m_state_strings = pre ++ p :: post ∧ (∀ q ∈ pre, q.1 ≠ s) ∧ p.1 = s ∧
        p.2 = "Unknown") ∧
    (∀ u : T, (state_stack.new u : state_stack T F).display_state s = "Unknown") ∧
    (∀ v : vec T, ({ st with m_states := v }).display_state s = st.display_state s) ∧
    (∀ table, (st.state_strings table).m_state_strings = table ∧
      (st.state_strings table).history = st.history) := by
  refine ⟨display_state_absent st s, display_state_first_row st s, ?_, ?_, ?_, ?_⟩
  · constructor
    · intro hu
      by_cases hall : ∀ p ∈ st.m_state_strings, p.1 ≠ s
      · exact Or.inl hall
      · obtain ⟨pre, p, post, ht, hpre, hp⟩ := exists_first_row s st.m_state_strings hall
        refine Or.inr ⟨pre, p, post, ht, hpre, hp, ?_⟩
        rw [← display_state_first_row st s pre p post ht hpre hp]
        exact hu
    · rintro (hall | ⟨pre, p, post, ht, hpre, hp, hl⟩)
      · exact display_state_absent st s hall
      · rw [display_state_first_row st s pre p post ht hpre hp]
        exact hl
  · intro u
    exact display_state_absent _ s (fun p hp => by simp [state_stack.new] at hp)
  · intro v
    rfl
  · intro table
    exact ⟨rfl, rfl⟩

/-- Witness for C16 amended: on `display_string_stack`, `docked` has no pair and
displays as `"Unknown"`; `running` displays as `"Running"`, the label of the
first of its two pairs. -/
theorem display_state_spec_witness :
    display_string_stack.display_state run_state.docked = "Unknown" ∧
    display_string_stack.display_state run_state.running = "Running" :=
  ⟨(display_state_spec display_string_stack run_state.docked).1 (by decide),
   (display_state_spec display_string_stack run_state.running).2.1
     [(run_state.undefined, "Undefined")] (run_state.running, "Running")
     [(run_state.starting_up, "Starting Up"), (run_state.running, "Again")]
     rfl (by decide) rfl⟩

/-! ## Handlers that call back into the stack -/

/-- A `set(r)` passes by the only entry handler when that is registered for
another state that is not the sentinel. -/
theorem set_skips_other_handler {T F : Type} [DecidableEq T] (run : runner T F)
    (st : state_stack T F) (d r : T) (f : F)
    (hreg : st.m_entry_handlers = [(d, f)]) (hrd : r ≠ d) (hdu : d ≠ st.m_undefined_state)
    (hr : st.get ≠ some r) :
    st.set run r = some { st with m_states := st.m_states.push_back r } := by
  have hne : ¬ r = st.history.getLast?.getD st.m_undefined_state := by
    intro h
    exact hr (by rw [get_eq, h])
  have hm : ¬ (d = r ∨ d = st.m_undefined_state) := by
    rintro (h | h)
    · exact hrd h.symm
    · exact hdu h
  have hloop : st.process_entry_handlers run
      (st.history.getLast?.getD st.m_undefined_state) r = some st := by
    simp [state_stack.process_entry_handlers, hreg, entry_loop, hm]
  unfold state_stack.set
  simp only [get_eq, if_neg hne, hloop]

/-- A `set(d)` whose only entry handler is registered for `d` and calls
`set(r)`: the handler pushes `r`, then the outer call pushes `d`.  One level of
nesting is enough. -/
theorem set_runs_entry_handler {T : Type} [DecidableEq T]
    (st : state_stack T (calling_handler T)) (d r : T) (f : calling_handler T) (fuel : Nat)
    (hreg : st.m_entry_handlers = [(d, f)]) (hf : ∀ o n, f o n = [call.set r])
    (hrd : r ≠ d) (hdu : d ≠ st.m_undefined_state)
    (hd : st.get ≠ some d) (hr : st.get ≠ some r) :
    st.set (reentrant (fuel + 1)) d =
      some { st with
        m_states := (st.m_states.push_back r).push_back d
        invoked := st.invoked ++
          [⟨handler_kind.entry, 0, st.history.getLast?.getD st.m_undefined_state, d⟩] } := by
  have hne : ¬ d = st.history.getLast?.getD st.m_undefined_state := by
    intro h
    exact hd (by rw [get_eq, h])
  have hnest := set_skips_other_handler (reentrant fuel)
    (st.record handler_kind.entry 0 (st.history.getLast?.getD st.m_undefined_state) d)
    d r f hreg hrd hdu hr
  have hrun : reentrant (fuel + 1) f (st.history.getLast?.getD st.m_undefined_state) d
      (st.record handler_kind.entry 0 (st.history.getLast?.getD st.m_undefined_state) d)
      = some { st.record handler_kind.entry 0
          (st.history.getLast?.getD st.m_undefined_state) d with
          m_states := st.m_states.push_back r } := by
    simp only [reentrant, hf, state_stack.apply_all, state_stack.apply, hnest]
    rfl
  have hloop : st.process_entry_handlers (reentrant (fuel + 1))
      (st.history.getLast?.getD st.m_undefined_state) d
      = some { st.record handler_kind.entry 0
          (st.history.getLast?.getD st.m_undefined_state) d with
          m_states := st.m_states.push_back r } := by
    simp only [state_stack.process_entry_handlers, hreg, entry_loop, true_or, if_true, hrun]
  have hget : ({ st.record handler_kind.entry 0
      (st.history.getLast?.getD st.m_undefined_state) d with
      m_states := st.m_states.push_back r } : state_stack T (calling_handler T)).get
      = some r := by
    simp [get_eq, state_stack.history, vec.push_back]
  unfold state_stack.set
  simp only [get_eq st, if_neg hne, hloop]
  rw [hget]
  simp only [if_neg (fun h : d = r => hrd h.symm)]
  rfl

/-- A `set(x)` does not return, at any nesting bound, when the only entry
handler is registered for `x` or for the sentinel and begins with `set(x)`,
and `x` is not the top: the handler is called before `x` is pushed and its
`set(x)` finds the stack as the outer call found it. -/
theorem set_never_returns {T : Type} [DecidableEq T] (x t : T) (f : calling_handler T)
    (hf : ∀ o n, ∃ rest, f o n = call.set x :: rest) :
    ∀ (fuel : Nat) (st : state_stack T (calling_handler T)),
      st.m_entry_handlers = [(t, f)] → (t = x ∨ t = st.m_undefined_state) →
      st.get ≠ some x → st.set (reentrant fuel) x = none := by
  intro fuel
  induction fuel with
  | zero =>
    intro st hreg ht hx
    have hne : ¬ x = st.history.getLast?.getD st.m_undefined_state := by
      intro h
      exact hx (by rw [get_eq, h])
    unfold state_stack.set
    simp only [get_eq st, if_neg hne, state_stack.process_entry_handlers, hreg, entry_loop,
      if_pos ht, reentrant]
  | succ n ih =>
    intro st hreg ht hx
    have hne : ¬ x = st.history.getLast?.getD st.m_undefined_state := by
      intro h
      exact hx (by rw [get_eq, h])
    obtain ⟨rest, hrest⟩ := hf (st.history.getLast?.getD st.m_undefined_state) x
    have hnest := ih
      (st.record handler_kind.entry 0 (st.history.getLast?.getD st.m_undefined_state) x)
      hreg ht hx
    unfold state_stack.set
    simp only [get_eq st, if_neg hne, state_stack.process_entry_handlers, hreg, entry_loop,
      if_pos ht, reentrant, hrest, state_stack.apply_all, state_stack.apply, hnest]

/-- A `set(y)` does not return either when the only entry handler, called for
`y`, begins with a `set(x)` that does not return. -/
theorem set_never_returns_outer {T : Type} [DecidableEq T] (x y t : T) (f : calling_handler T)
    (hf : ∀ o n, ∃ rest, f o n = call.set x :: rest)
    (fuel : Nat) (st : state_stack T (calling_handler T))
    (hreg : st.m_entry_handlers = [(t, f)])
    (hty : t = y ∨ t = st.m_undefined_state) (htx : t = x ∨ t = st.m_undefined_state)
    (hy : st.get ≠ some y) (hx : st.get ≠ some x) :
    st.set (reentrant fuel) y = none := by
  have hne : ¬ y = st.history.getLast?.getD st.m_undefined_state := by
    intro h
    exact hy (by rw [get_eq, h])
  cases fuel with
  | zero =>
    unfold state_stack.set
    simp only [get_eq st, if_neg hne, state_stack.process_entry_handlers, hreg, entry_loop,
      if_pos hty, reentrant]
  | succ n =>
    obtain ⟨rest, hrest⟩ := hf (st.history.getLast?.getD st.m_undefined_state) y
    have hnest := set_never_returns x t f hf n
      (st.record handler_kind.entry 0 (st.history.getLast?.getD st.m_undefined_state) y)
      hreg htx hx
    unfold state_stack.set
    simp only [get_eq st, if_neg hne, state_stack.process_entry_handlers, hreg, entry_loop,
      if_pos hty, reentrant, hrest, state_stack.apply_all, state_stack.apply, hnest]

/-- C11 as stated fails: on `entry_handler_stack` (history `[running]`, the
only handler an entry handler for `docked` calling `set(recording)`),
`set(docked)` leaves the history `[running, recording, docked]`: `get()` is
`docked`, not `recording`, and `get_last()` is `recording`, not `docked`.  The
handler runs before the outer push, so what it pushes lies underneath.  And
with the handler registered for the sentinel instead (`wildcard_entry_stack`)
the outer `set` does not return at all. -/
theorem entry_handler_order_counterexample :
    ((entry_handler_stack.set (reentrant 1) run_state.docked).map
        (fun st => (st.history, st.get, st.get_last))
      = some ([run_state.running, run_state.recording, run_state.docked],
          some run_state.docked, some run_state.recording) ∧
      ∀ fuel, (wildcard_entry_stack.set (reentrant fuel) run_state.undefined).isSome = false) ∧
    ¬ (∀ (st : state_stack run_state (calling_handler run_state)) (d r : run_state)
        (f : calling_handler run_state),
        st.m_entry_handlers = [(d, f)] → st.m_exit_handlers = [] →
        (∀ o n, f o n = [call.set r]) → r ≠ d → st.get ≠ some d → st.get ≠ some r →
        ∃ fuel st1, st.set (reentrant fuel) d = some st1 ∧
          st1.get = some r ∧ st1.get_last = some d) := by
  refine ⟨⟨rfl, ?_⟩, ?_⟩
  · intro fuel
    rw [set_never_returns_outer run_state.recording run_state.undefined run_state.undefined
      (fun _ _ => [call.set run_state.recording]) (fun _ _ => ⟨[], rfl⟩) fuel
      wildcard_entry_stack rfl (Or.inl rfl) (Or.inr rfl) (by decide) (by decide)]
    rfl
  · intro h
    obtain ⟨fuel, st1, hs, hg, _⟩ := h entry_handler_stack run_state.docked run_state.recording
      (fun _ _ => [call.set run_state.recording]) rfl rfl (fun _ _ => rfl)
      (by decide) (by decide) (by decide)
    cases fuel with
    | zero => exact absurd hs (by simp [show entry_handler_stack.set (reentrant 0)
        run_state.docked = none from rfl])
    | succ n =>
      rw [set_runs_entry_handler entry_handler_stack run_state.docked run_state.recording
        (fun _ _ => [call.set run_state.recording]) n rfl (fun _ _ => rfl)
        (by decide) (by decide) (by decide) (by decide)] at hs
      cases hs
      simp [get_eq, state_stack.history, vec.push_back] at hg

/-- C11 amended: when the only registered handler is an entry handler for `d`,
`d` not the sentinel, that calls `set(r)` (`r != d`, neither `r` nor `d` the
current `get()`), the outer `set(d)` returns, and then the top of the history
is `d` (`get() == d`) and `get_last() == r`: `r` lies directly underneath
`d`, and `count()` has grown by 2. -/
theorem entry_handler_result_order {T : Type} [DecidableEq T]
    (st : state_stack T (calling_handler T)) (d r : T) (f : calling_handler T) (fuel : Nat)
    (hreg : st.m_entry_handlers = [(d, f)]) (_hexit : st.m_exit_handlers = [])
    (hf : ∀ o n, f o n = [call.set r])
    (hrd : r ≠ d) (hdu : d ≠ st.m_undefined_state)
    (hd : st.get ≠ some d) (hr : st.get ≠ some r) :
    ∃ st1, st.set (reentrant (fuel + 1)) d = some st1 ∧
      st1.get = some d ∧ st1.get_last = some r ∧ st1.count = st.count + 2 := by
  refine ⟨_, set_runs_entry_handler st d r f fuel hreg hf hrd hdu hd hr, ?_, ?_, ?_⟩
  · simp [get_eq, state_stack.history, vec.push_back]
  · simp [get_last_eq, state_stack.history, vec.push_back]
  · simp [state_stack.count, vec.size, vec.push_back]

/-- Witness for C11 amended: `set(docked)` on `entry_handler_stack`. -/
theorem entry_handler_result_order_witness :
    ∃ st1, entry_handler_stack.set (reentrant (0 + 1)) run_state.docked = some st1 ∧
      st1.get = some run_state.docked ∧ st1.get_last = some run_state.recording ∧
      st1.count = 1 + 2 :=
  entry_handler_result_order entry_handler_stack run_state.docked run_state.recording
    (fun _ _ => [call.set run_state.recording]) 0 rfl rfl (fun _ _ => rfl)
    (by decide) (by decide) (by decide) (by decide)

/-- C12 as stated fails for `d` the sentinel: on `wildcard_entry_stack`
(history `[running]`, the only handler an entry handler registered for the
sentinel `undefined` calling `set(recording)`), `set(undefined)` does not
return at any nesting bound.  A handler registered for the sentinel is a
wildcard: it is called again by its own `set(recording)`, before `recording`
is pushed, and so on without end. -/
theorem entry_handler_wildcard_counterexample :
    (wildcard_entry_stack.history = [run_state.running] ∧
      wildcard_entry_stack.m_undefined_state = run_state.undefined ∧
      ∀ fuel, wildcard_entry_stack.set (reentrant fuel) run_state.undefined = none) ∧
    ¬ (∀ (st : state_stack run_state (calling_handler run_state)) (d r : run_state)
        (f : calling_handler run_state),
        st.m_entry_handlers = [(d, f)] → st.m_exit_handlers = [] →
        (∀ o n, f o n = [call.set r]) → r ≠ d → st.get ≠ some d → st.get ≠ some r →
        ∃ fuel st1, st.set (reentrant fuel) d = some st1 ∧
          st1.history = st.history ++ [r, d] ∧ st1.get_last = some r) := by
  have hdiv : ∀ fuel, wildcard_entry_stack.set (reentrant fuel) run_state.undefined = none :=
    fun fuel => set_never_returns_outer run_state.recording run_state.undefined
      run_state.undefined (fun _ _ => [call.set run_state.recording]) (fun _ _ => ⟨[], rfl⟩)
      fuel wildcard_entry_stack rfl (Or.inl rfl) (Or.inr rfl) (by decide) (by decide)
  refine ⟨⟨rfl, rfl, hdiv⟩, ?_⟩
  intro h
  obtain ⟨fuel, st1, hs, _⟩ := h wildcard_entry_stack run_state.undefined run_state.recording
    (fun _ _ => [call.set run_state.recording]) rfl rfl (fun _ _ => rfl)
    (by decide) (by decide) (by decide)
  rw [hdiv fuel] at hs
  cases hs

/-- C12 amended: for every history `h` and states `d`, `r` with `r != d`,
neither equal to `get()`, and `d` not the sentinel, when the only registered
handler is an entry handler for `d` that calls `set(r)`, `set(d)` returns and
leaves the history `h ++ [r, d]`, so `get_last() == r`; the handler was called
once, with `(get()` before the call`, d)`. -/
theorem entry_handler_history {T : Type} [DecidableEq T]
    (st : state_stack T (calling_handler T)) (d r : T) (f : calling_handler T) (fuel : Nat)
    (hreg : st.m_entry_handlers = [(d, f)]) (_hexit : st.m_exit_handlers = [])
    (hf : ∀ o n, f o n = [call.set r])
    (hrd : r ≠ d) (hdu : d ≠ st.m_undefined_state)
    (hd : st.get ≠ some d) (hr : st.get ≠ some r) :
    ∃ st1, st.set (reentrant (fuel + 1)) d = some st1 ∧
      st1.history = st.history ++ [r, d] ∧
      st1.get_last = some r ∧
      st1.invoked = st.invoked ++
        [⟨handler_kind.entry, 0, st.history.getLast?.getD st.m_undefined_state, d⟩] := by
  refine ⟨_, set_runs_entry_handler st d r f fuel hreg hf hrd hdu hd hr, ?_, ?_, rfl⟩
  · simp [state_stack.history, vec.push_back]
  · simp [get_last_eq, state_stack.history, vec.push_back]

/-- Witness for C12 amended: `h = [running]`, `d = docked`, `r = recording`,
the stack of `state_stack_verify_entry_handler`. -/
theorem entry_handler_history_witness :
    ∃ st1, entry_handler_stack.set (reentrant (0 + 1)) run_state.docked = some st1 ∧
      st1.history = [run_state.running] ++ [run_state.recording, run_state.docked] ∧
      st1.get_last = some run_state.recording ∧
      st1.invoked = [] ++
        [⟨handler_kind.entry, 0, run_state.running, run_state.docked⟩] :=
  entry_handler_history entry_handler_stack run_state.docked run_state.recording
    (fun _ _ => [call.set run_state.recording]) 0 rfl rfl (fun _ _ => rfl)
    (by decide) (by decide) (by decide) (by decide)

/-- C13, the code at the failing input `exit_handler_stack`, the stack of
`state_stack_verify_exit_handler`: history `[running, docked]` in a vector of
capacity 2 (what `set(running); set(docked)` on a fresh stack leaves), the
only handler an exit handler for `docked` that calls `set(recording)`.
`clear()` binds `old_state` to the second slot and dispatches.  The handler
returns and leaves the history `[running, docked, recording]`, but its
`push_back` found `size() == capacity()` and moved the elements to a new
block.  So `old_state` dangles when `clear()` compares it with
`m_states.back()` and when it returns it: the call has no defined result,
where the claim has it return `docked`.  With storage reserved beforehand
(`reserve(3)`) nothing moves, and `clear()` returns `docked` and leaves
`[running, docked, recording]`, as the claim says. -/
theorem clear_reads_dangling_reference :
    ∀ fuel : Nat,
      (((state_stack.new run_state.undefined :
            state_stack run_state (calling_handler run_state)).add_exit_handler
          run_state.docked (fun _ _ => [call.set run_state.recording])).apply_all
          (reentrant (fuel + 1)) [call.set run_state.running, call.set run_state.docked]).map
          (fun st => (st.history, st.m_states.capacity, st.m_exit_handlers.length))
        = some (exit_handler_stack.history, exit_handler_stack.m_states.capacity, 1) ∧
      exit_handler_stack.history = [run_state.running, run_state.docked] ∧
      exit_handler_stack.m_states.capacity = 2 ∧
      exit_handler_stack.m_states.block = 0 ∧
      (exit_handler_stack.process_exit_handlers (reentrant (fuel + 1)) 1
          run_state.running).map (fun st => (st.history, st.m_states.block))
        = some ([run_state.running, run_state.docked, run_state.recording], 1) ∧
      exit_handler_stack.clear (reentrant (fuel + 1)) = none ∧
      ((exit_handler_stack.reserve 3).clear (reentrant (fuel + 1))).map
          (fun r => (r.1, r.2.history))
        = some (run_state.docked,
            [run_state.running, run_state.docked, run_state.recording]) :=
  fun _ => ⟨rfl, rfl, rfl, rfl, rfl, rfl, rfl⟩

/-- C18, the code at the failing input `interfering_exit_stack`: history
`[running, docked]`, an exit handler for `docked` that calls `clear(running)`
and `set(recording)`.  The handler leaves the history `[docked, recording]`.
The value on top when `clear()` was called is `docked`, the top the handler
left is `recording`, so nothing should be popped and `docked` returned.  But
`old_state` is a reference to the second slot of `m_states`, which now holds
`recording`: the test `old_state == m_states.back()` compares the slot with
itself, `recording` is popped, and `clear()` returns `recording`. -/
theorem clear_reads_overwritten_slot :
    ∀ fuel : Nat,
      interfering_exit_stack.get = some run_state.docked ∧
      (interfering_exit_stack.process_exit_handlers (reentrant (fuel + 1)) 1
          run_state.running).map state_stack.history
        = some [run_state.docked, run_state.recording] ∧
      (interfering_exit_stack.clear (reentrant (fuel + 1))).map
          (fun r => (r.1, r.2.history))
        = some (run_state.recording, [run_state.docked]) :=
  fun _ => ⟨rfl, rfl, rfl⟩

/-! ## `set` and `clear()` with handlers that edit the stack -/

/-- The entry loop returns when every handler call returns. -/
theorem entry_loop_returns {T F : Type} [DecidableEq T] (run : runner T F)
    (htotal : ∀ f o n st0, ∃ st1, run f o n st0 = some st1) (old_state new_state : T)
    (registry : List (T × F)) :
    ∀ (position : Nat) (st : state_stack T F),
      ∃ st1, entry_loop run old_state new_state position registry st = some st1 := by
  induction registry with
  | nil => intro position st; exact ⟨st, rfl⟩
  | cons f rest ih =>
    intro position st
    by_cases hm : f.1 = new_state ∨ f.1 = st.m_undefined_state
    · obtain ⟨st1, h1⟩ := htotal f.2 old_state new_state
        (st.record handler_kind.entry position old_state new_state)
      obtain ⟨st2, h2⟩ := ih (position + 1) st1
      exact ⟨st2, by simp only [entry_loop, if_pos hm, h1, h2]⟩
    · obtain ⟨st2, h2⟩ := ih (position + 1) st
      exact ⟨st2, by simp only [entry_loop, if_neg hm, h2]⟩

/-- The shape of `set` behind its guard, given what dispatch returned. -/
theorem set_after_dispatch {T F : Type} [DecidableEq T] (run : runner T F)
    (st st1 : state_stack T F) (s old_state : T)
    (hget : st.get = some old_state) (hne : s ≠ old_state)
    (hd : st.process_entry_handlers run old_state s = some st1) :
    st.set run s =
      if s = st1.history.getLast?.getD st1.m_undefined_state then some st1
      else some { st1 with m_states := st1.m_states.push_back s } := by
  unfold state_stack.set
  simp only [hget, if_neg hne, hd, get_eq st1]

/-- C19: for every history, every state `s` and every behaviour `run` of the
entry handlers under which handler calls return (they may push, pop or reset
the history), `set(s)` returns and afterwards `get() == s`.  When `s` was
`get()` already nothing is dispatched and nothing changes; otherwise, with
`st1` the stack as dispatch left it, the outer call appends `s` exactly when
the top of `st1` differs from `s`, and returns `st1` as it is when a handler
already made `s` the top. -/
theorem set_ends_with_new_state_on_top {T F : Type} [DecidableEq T] (run : runner T F)
    (htotal : ∀ f o n st0, ∃ st1, run f o n st0 = some st1)
    (st : state_stack T F) (s : T) :
    ∃ st2, st.set run s = some st2 ∧ st2.get = some s ∧
      (st.get = some s → st2 = st) ∧
      (st.get ≠ some s →
        ∃ old_state st1, st.get = some old_state ∧
          st.process_entry_handlers run old_state s = some st1 ∧
          (st1.get ≠ some s →
            st2 = { st1 with m_states := st1.m_states.push_back s } ∧
            st2.history = st1.history ++ [s]) ∧
          (st1.get = some s → st2 = st1)) := by
  by_cases hs : st.get = some s
  · exact ⟨st, set_same_state run st s hs, hs, fun _ => rfl, fun h => absurd hs h⟩
  · have hne : s ≠ st.history.getLast?.getD st.m_undefined_state := by
      intro h
      exact hs (by rw [get_eq, ← h])
    obtain ⟨st1, hd⟩ := entry_loop_returns run htotal
      (st.history.getLast?.getD st.m_undefined_state) s st.m_entry_handlers 0 st
    have hset := set_after_dispatch run st st1 s _ (get_eq st) hne hd
    by_cases h1 : s = st1.history.getLast?.getD st1.m_undefined_state
    · have hg1 : st1.get = some s := by rw [get_eq, ← h1]
      rw [if_pos h1] at hset
      exact ⟨st1, hset, hg1, fun h => absurd h hs,
        fun _ => ⟨_, st1, get_eq st, hd, fun h => absurd hg1 h, fun _ => rfl⟩⟩
    · have hg1 : st1.get ≠ some s := by
        intro h
        apply h1
        rw [get_eq] at h
        exact (Option.some.inj h).symm
      rw [if_neg h1] at hset
      refine ⟨_, hset, ?_, fun h => absurd h hs,
        fun _ => ⟨_, st1, get_eq st, hd, fun _ => ⟨rfl, ?_⟩, fun h => absurd h hg1⟩⟩
      · simp [get_eq, state_stack.history, vec.push_back]
      · simp [state_stack.history, vec.push_back]

/-- Witness for C19: `set(recording)` on `sample_stack` with handlers that call
`reset()`: dispatch leaves an empty history and the outer call pushes
`recording`. -/
theorem set_ends_with_new_state_on_top_witness :
    ∃ st2, sample_stack.set resetting run_state.recording = some st2 ∧
      st2.get = some run_state.recording ∧
      (sample_stack.get = some run_state.recording → st2 = sample_stack) ∧
      (sample_stack.get ≠ some run_state.recording →
        ∃ old_state st1, sample_stack.get = some old_state ∧
          sample_stack.process_entry_handlers resetting old_state run_state.recording
            = some st1 ∧
          (st1.get ≠ some run_state.recording →
            st2 = { st1 with m_states := st1.m_states.push_back run_state.recording } ∧
            st2.history = st1.history ++ [run_state.recording]) ∧
          (st1.get = some run_state.recording → st2 = st1)) :=
  set_ends_with_new_state_on_top resetting (fun _ _ _ st0 => ⟨st0.reset, rfl⟩)
    sample_stack run_state.recording

end StateStack
